import Mathlib

/-!
Verification of the check_growth resource-growth monitor: a shallow embedding
of the HistoryFile time-series store, the growth estimators
find_planned_grow_ratio and find_current_grow_ratio (renamed here to
findPlannedGrowRate and findCurrentGrowRate), and the threshold
classification performed by do_status_processing, together with theorems
settling the specification claims about them.

Conventions of the embedding:
* A Python dictionary keyed by timestamps becomes a Finset of integer keys
  plus a valuation function; the valuation outside the key set is
  unobservable junk and every observation goes through the key set.
* Machine floats are idealised as exact rationals; the Python builtin
  round(x, 2), which rounds half to even, is modelled exactly by pyRound2.
* Raising an exception becomes returning an Except value.
* The call os.path.exists becomes an abstract filesystem predicate fs.
* The clock time.time() becomes an explicit argument now.
-/

/-- Model of the Python builtin round on a rational: round to the nearest
integer, resolving ties (fractional part exactly one half) to the even
integer, as CPython does for floats. -/
def pyRound (q : ℚ) : ℤ :=
  if Int.fract q = 1 / 2 then (if 2 ∣ ⌊q⌋ then ⌊q⌋ else ⌊q⌋ + 1) else round q

/-- Model of the Python call round(x, 2): scale by 100, round half to even,
scale back. -/
def pyRound2 (q : ℚ) : ℚ :=
  (pyRound (q * 100) : ℚ) / 100

theorem pyRound_of_fract_lt_half {q : ℚ} (h : Int.fract q < 1 / 2) :
    pyRound q = ⌊q⌋ := by
  have hne : Int.fract q ≠ 1 / 2 := by linarith
  have hq : q - ⌊q⌋ = Int.fract q := Int.self_sub_floor q
  have h0 : 0 ≤ Int.fract q := Int.fract_nonneg q
  unfold pyRound
  rw [if_neg hne, round_eq]
  exact Int.floor_eq_iff.mpr ⟨by linarith, by linarith⟩

theorem pyRound_of_half_lt_fract {q : ℚ} (h : 1 / 2 < Int.fract q) :
    pyRound q = ⌊q⌋ + 1 := by
  have hne : Int.fract q ≠ 1 / 2 := by linarith
  have hq : q - ⌊q⌋ = Int.fract q := Int.self_sub_floor q
  have h1 : Int.fract q < 1 := Int.fract_lt_one q
  unfold pyRound
  rw [if_neg hne, round_eq]
  exact Int.floor_eq_iff.mpr ⟨by push_cast; linarith, by push_cast; linarith⟩

theorem pyRound_floor_le (q : ℚ) : ⌊q⌋ ≤ pyRound q := by
  unfold pyRound
  split
  · split
    · exact le_refl _
    · omega
  · rw [round_eq]
    exact Int.floor_le_floor (by linarith)

theorem pyRound_le_floor_add_one (q : ℚ) : pyRound q ≤ ⌊q⌋ + 1 := by
  unfold pyRound
  split
  · split <;> omega
  · rw [round_eq, Int.floor_le_iff]
    push_cast
    have := Int.lt_floor_add_one q
    linarith

theorem pyRound_mono {a b : ℚ} (hab : a ≤ b) : pyRound a ≤ pyRound b := by
  have hfl : ⌊a⌋ ≤ ⌊b⌋ := Int.floor_le_floor hab
  rcases lt_or_eq_of_le hfl with hlt | heq
  · calc pyRound a ≤ ⌊a⌋ + 1 := pyRound_le_floor_add_one a
      _ ≤ ⌊b⌋ := by omega
      _ ≤ pyRound b := pyRound_floor_le b
  · -- same integer part: compare fractional parts
    have ha' : a - ⌊a⌋ = Int.fract a := Int.self_sub_floor a
    have hb' : b - ⌊b⌋ = Int.fract b := Int.self_sub_floor b
    have hcast : ((⌊a⌋ : ℚ)) = ((⌊b⌋ : ℚ)) := by exact_mod_cast heq
    have hfr : Int.fract a ≤ Int.fract b := by linarith
    by_cases hta : Int.fract a = 1 / 2
    · by_cases htb : Int.fract b = 1 / 2
      · -- both are ties over the same floor, hence a = b
        have : a = b := by linarith [hta, htb]
        rw [this]
      · -- a is a tie, b lies strictly above the tie point
        have hfrb : 1 / 2 < Int.fract b := lt_of_le_of_ne (hta ▸ hfr) (Ne.symm htb)
        rw [pyRound_of_half_lt_fract hfrb]
        have := pyRound_le_floor_add_one a
        omega
    · by_cases hlo : Int.fract a < 1 / 2
      · -- a rounds down to its floor
        rw [pyRound_of_fract_lt_half hlo, heq]
        exact pyRound_floor_le b
      · -- a lies strictly above the tie point, hence so does b
        have hfra : 1 / 2 < Int.fract a :=
          lt_of_le_of_ne (not_lt.mp hlo) (Ne.symm hta)
        have hfrb : 1 / 2 < Int.fract b := lt_of_lt_of_le hfra hfr
        rw [pyRound_of_half_lt_fract hfra, pyRound_of_half_lt_fract hfrb]
        omega

theorem pyRound2_mono {a b : ℚ} (hab : a ≤ b) : pyRound2 a ≤ pyRound2 b := by
  unfold pyRound2
  have h : pyRound (a * 100) ≤ pyRound (b * 100) := pyRound_mono (by linarith)
  have h' : ((pyRound (a * 100) : ℚ)) ≤ ((pyRound (b * 100) : ℚ)) := by exact_mod_cast h
  linarith

/-! ## Data model of the HistoryFile store -/

/-- Model of a Python value passed as the datapoint argument. The source
checks it with float(datapoint): finite numbers, infinities and NaN all
pass that conversion; only a value float() cannot convert (for example a
non-numeric string) raises. -/
inductive PyVal where
  | num (q : ℚ)
  | inf
  | nan
  | nonFloat
  deriving DecidableEq, Inhabited

/-- Whether the call float(datapoint) succeeds on the value. -/
def floatOk : PyVal → Bool
  | .nonFloat => false
  | _ => true

/-- Whether the value is a finite number. -/
def isFiniteNum : PyVal → Bool
  | .num _ => true
  | _ => false

/-- One time series: a Python dict from integer timestamps to values,
modelled as a finite key set plus a valuation. The valuation outside the
key set is unobservable. -/
structure Series (α : Type) where
  keys : Finset ℤ
  val : ℤ → α

/-- Dict insertion; a colliding timestamp overwrites, as in Python. -/
def insertS {α : Type} (t : ℤ) (v : α) (ser : Series α) : Series α :=
  ⟨insert t ser.keys, fun u => if u = t then v else ser.val u⟩

def emptySeries {α : Type} [Inhabited α] : Series α :=
  ⟨∅, fun _ => default⟩

/-- Entry of the store under one disk mountpoint: the Python dict mapping a
data_type string to its sub-series. -/
structure DiskEntry (α : Type) where
  kinds : Finset String
  series : String → Series α

/-- The whole _data['datapoints'] dictionary of HistoryFile. -/
structure Store (α : Type) where
  memory : Series α
  diskKeys : Finset String
  disk : String → DiskEntry α

def emptyStore {α : Type} [Inhabited α] : Store α :=
  { memory := emptySeries
    diskKeys := ∅
    disk := fun _ => ⟨∅, fun _ => emptySeries⟩ }

/-- Error taxonomy: a ValueError raised by the sanity checks is
invalidInput, the ValueError raised by max()/min() on an empty key view is
emptySeries, and a KeyError from looking up an unallocated dict key is
keyErr. -/
inductive Err where
  | invalidInput
  | emptySeries
  | keyErr
  deriving DecidableEq

/-! ## Store operations -/

/-- Filter of one series against the cutoff, keeping the strictly newer
samples, as in the dict comprehensions of _remove_old_datapoints. -/
def purgeSeries {α : Type} (cutoff : ℚ) (ser : Series α) : Series α :=
  ⟨ser.keys.filter (fun t => cutoff < (t : ℚ)), ser.val⟩

/-- Embedding of HistoryFile._remove_old_datapoints: the clock is sampled
once, the cutoff now - max_averaging_window*3600*24 is computed once, and
every series (memory, and every mountpoint and data_type) keeps exactly
the samples strictly newer than the cutoff. -/
def removeOldDatapoints {α : Type} (s : Store α) (now maxw : ℚ) : Store α :=
  let cutoff := now - maxw * (3600 * 24)
  { memory := purgeSeries cutoff s.memory
    diskKeys := s.diskKeys
    disk := fun p =>
      { kinds := (s.disk p).kinds
        series := fun d => purgeSeries cutoff ((s.disk p).series d) } }

/-- Embedding of HistoryFile._verify_resource_types: true when no
ValueError is raised. The prefix must be disk or memory; for disk the path
must be present and exist on the filesystem and the data_type must be
inode or space. -/
def verifyResourceTypes (fs : String → Bool) (pfx : String)
    (path data_type : Option String) : Bool :=
  if pfx ≠ "disk" ∧ pfx ≠ "memory" then false
  else if pfx = "disk" then
    match path with
    | none => false
    | some p => fs p && (data_type = some "inode" || data_type = some "space")
  else true

/-- Mutation step of add_datapoint, after the sanity checks have passed:
insert the sample at timestamp t, allocating the inode/space pair for a
mountpoint seen for the first time. The fall-through case is unreachable
when the checks have passed. -/
def addApply {α : Type} [Inhabited α] (pfx : String) (v : α)
    (path data_type : Option String) (t : ℤ) (s : Store α) : Store α :=
  if pfx = "memory" then { s with memory := insertS t v s.memory }
  else
    match path, data_type with
    | some p, some d =>
      let e := if p ∈ s.diskKeys then s.disk p
               else { kinds := {"inode", "space"}, series := fun _ => emptySeries }
      { s with diskKeys := insert p s.diskKeys
               disk := fun q =>
                 if q = p then
                   { kinds := e.kinds
                     series := fun k => if k = d then insertS t v (e.series k)
                                        else e.series k }
                 else s.disk q }
    | _, _ => s

/-- Embedding of HistoryFile.add_datapoint: verify the resource key, check
the value with float(datapoint), then insert at the current clock reading
rounded to an integer. -/
def add_datapoint (fs : String → Bool) (pfx : String) (v : PyVal)
    (path data_type : Option String) (now : ℚ) (s : Store PyVal) :
    Except Err (Store PyVal) :=
  if verifyResourceTypes fs pfx path data_type = false then .error .invalidInput
  else if floatOk v = false then .error .invalidInput
  else .ok (addApply pfx v path data_type (pyRound now) s)

/-- The series a read of the given key goes through, when it is allocated
in the store. -/
def seriesFor {α : Type} (pfx : String) (path data_type : Option String)
    (s : Store α) : Option (Series α) :=
  if pfx = "memory" then some s.memory
  else
    match path, data_type with
    | some p, some d =>
      if p ∈ s.diskKeys then
        (if d ∈ (s.disk p).kinds then some ((s.disk p).series d) else none)
      else none
    | _, _ => none

/-- Span computation of get_dataspan over one series:
round((max(keys) - min(keys))/(3600*24), 2); max() and min() on an empty
dict view raise (modelled as the emptySeries error). -/
def spanOf {α : Type} (ser : Series α) : Except Err ℚ :=
  if h : ser.keys.Nonempty then
    .ok (pyRound2 (((ser.keys.max' h - ser.keys.min' h : ℤ) : ℚ) / (3600 * 24)))
  else .error .emptySeries

/-- Embedding of HistoryFile.get_dataspan. It verifies the key and then
reads the current keys of the series; note that it does not purge. -/
def get_dataspan (fs : String → Bool) (pfx : String)
    (path data_type : Option String) (s : Store PyVal) : Except Err ℚ :=
  if verifyResourceTypes fs pfx path data_type = false then .error .invalidInput
  else
    match seriesFor pfx path data_type s with
    | some ser => spanOf ser
    | none => .error .keyErr

/-- Embedding of HistoryFile.verify_dataspan: the dataspan minus the
minimum averaging window. -/
def verify_dataspan (fs : String → Bool) (pfx : String)
    (path data_type : Option String) (s : Store PyVal) (minw : ℚ) :
    Except Err ℚ :=
  if verifyResourceTypes fs pfx path data_type = false then .error .invalidInput
  else (get_dataspan fs pfx path data_type s).map (fun ds => ds - minw)

/-- Embedding of HistoryFile.get_datapoints: verify the key, purge the
whole store, then return the series of the key. -/
def get_datapoints (fs : String → Bool) (pfx : String)
    (path data_type : Option String) (s : Store PyVal) (now maxw : ℚ) :
    Except Err (Series PyVal) :=
  if verifyResourceTypes fs pfx path data_type = false then .error .invalidInput
  else
    let s2 := removeOldDatapoints s now maxw
    if pfx = "disk" then
      match path, data_type with
      | some p, some d =>
        if p ∈ s2.diskKeys then
          if d ∈ (s2.disk p).kinds then .ok ((s2.disk p).series d)
          else .error .keyErr
        else .error .keyErr
      | _, _ => .error .invalidInput
    else .ok s2.memory

/-- Embedding of HistoryFile.clear_history: every resource type of the
datapoints dict is reset to an empty dict. -/
def clear_history {α : Type} (s : Store α) : Store α :=
  { memory := ⟨∅, s.memory.val⟩
    diskKeys := ∅
    disk := s.disk }

/-- Embedding of HistoryFile.save: the state serialised to the file is the
store purged at the moment of the call. -/
def saveStore {α : Type} (s : Store α) (now maxw : ℚ) : Store α :=
  removeOldDatapoints s now maxw

/-- Outcome of the open(location) plus yaml.load step of HistoryFile.init. -/
inductive LoadOutcome where
  | loaded (d : Store PyVal)
  | fileMissing
  | permissionDenied
  | otherIOErr
  | yamlErr
  | otherErr

/-- Whether the raised exception is caught by the source line
except (IOError, yaml.YAMLError). In Python 3, IOError is an alias of
OSError, and FileNotFoundError and PermissionError are subclasses of
OSError, so every I/O failure of open() is caught; an exception outside
both families (for example a UnicodeDecodeError while decoding the file)
is not caught. -/
def caughtByFallback : LoadOutcome → Bool
  | .fileMissing => true
  | .permissionDenied => true
  | .otherIOErr => true
  | .yamlErr => true
  | _ => false

/-- Embedding of HistoryFile.init: on a successful load the store is purged
immediately; on IOError or YAMLError the store falls back to the empty
datapoints dict; any other exception propagates out of init. -/
def histInit (outcome : LoadOutcome) (now maxw : ℚ) : Except Unit (Store PyVal) :=
  match outcome with
  | .loaded d => .ok (removeOldDatapoints d now maxw)
  | o => if caughtByFallback o then .ok emptyStore else .error ()

/-! ## Growth estimators and threshold evaluation -/

/-- Embedding of find_planned_grow_ratio: round(max_usage/timeframe, 2);
the cur_usage argument is accepted and ignored by the source. -/
def findPlannedGrowRate (curUsage maxUsage timeframe : ℚ) : ℚ :=
  pyRound2 (maxUsage / timeframe)

def nQ (dps : Series ℚ) : ℚ := (dps.keys.card : ℚ)

def sumX (dps : Series ℚ) : ℚ := ∑ t in dps.keys, (t : ℚ)

def sumY (dps : Series ℚ) : ℚ := ∑ t in dps.keys, dps.val t

def sumXX (dps : Series ℚ) : ℚ := ∑ t in dps.keys, (t : ℚ) ^ 2

def sumXY (dps : Series ℚ) : ℚ := ∑ t in dps.keys, (t : ℚ) * dps.val t

def sumYY (dps : Series ℚ) : ℚ := ∑ t in dps.keys, dps.val t ^ 2

/-- Determinant of the normal equations of the fit y = a*x + b. -/
def detD (dps : Series ℚ) : ℚ := nQ dps * sumXX dps - sumX dps ^ 2

/-- Slope of the least-squares solution computed by numpy.linalg.lstsq on
the design matrix with columns x and 1: for the full-rank case (at least
two distinct timestamps) the least-squares solution is the unique solution
of the normal equations, here in closed form over the raw sums, with no
normalisation or centering. -/
def olsSlope (dps : Series ℚ) : ℚ :=
  (nQ dps * sumXY dps - sumX dps * sumY dps) / detD dps

/-- Intercept of the same least-squares solution. -/
def olsIntercept (dps : Series ℚ) : ℚ :=
  (sumY dps * sumXX dps - sumX dps * sumXY dps) / detD dps

/-- Embedding of find_current_grow_ratio: the fitted slope rescaled from
units per second to units per day and rounded to two decimals. -/
def findCurrentGrowRate (dps : Series ℚ) : ℚ :=
  pyRound2 (olsSlope dps * (3600 * 24))

/-- Residual sum of squares of the affine fit y = a*x + b over the samples. -/
def RSS (dps : Series ℚ) (a b : ℚ) : ℚ :=
  ∑ t in dps.keys, (dps.val t - (a * (t : ℚ) + b)) ^ 2

/-- Definition taken from the words of the spec, for the refinement
theorem of C3: (a, b) is an ordinary least-squares fit when it minimises
the residual sum of squares over all candidate lines. -/
def IsOLSFit (dps : Series ℚ) (a b : ℚ) : Prop :=
  ∀ a2 b2, RSS dps a b ≤ RSS dps a2 b2

/-- Classification outcomes reported through ScriptStatus. -/
inductive Status where
  | ok
  | warn
  | crit
  deriving DecidableEq

/-- Embedding of the classification logic of do_status_processing: the
warn threshold test guards the crit threshold test, and both comparisons
are strict. -/
def do_status_processing (currentGrowth plannedGrowth warnPct critPct : ℚ) :
    Status :=
  let warnTresh := 1 + warnPct / 100
  let critTresh := 1 + critPct / 100
  if plannedGrowth * warnTresh < currentGrowth then
    (if plannedGrowth * critTresh < currentGrowth then .crit else .warn)
  else .ok

instance {ε α : Type} [DecidableEq ε] [DecidableEq α] : DecidableEq (Except ε α) :=
  fun x y =>
    match x, y with
    | .ok a, .ok b =>
      if h : a = b then isTrue (congrArg Except.ok h)
      else isFalse (fun hc => h (Except.ok.inj hc))
    | .error a, .error b =>
      if h : a = b then isTrue (congrArg Except.error h)
      else isFalse (fun hc => h (Except.error.inj hc))
    | .ok _, .error _ => isFalse (fun hc => Except.noConfusion hc)
    | .error _, .ok _ => isFalse (fun hc => Except.noConfusion hc)

/-! ## Claim C5: the planned growth ratio -/

/-- C5: for every current usage, total and positive timeframe,
find_planned_grow_ratio returns round(total/timeframe, 2), independent of
the current-usage argument. -/
theorem findPlannedGrowRate_spec (curUsage maxUsage timeframe : ℚ)
    (h : 0 < timeframe) :
    findPlannedGrowRate curUsage maxUsage timeframe =
      pyRound2 (maxUsage / timeframe) ∧
    ∀ cur2, findPlannedGrowRate cur2 maxUsage timeframe =
      findPlannedGrowRate curUsage maxUsage timeframe :=
  ⟨rfl, fun _ => rfl⟩

/-- C5 witness: plannedRate(252, 11323, 365) = 31.02. -/
theorem findPlannedGrowRate_spec_witness :
    (0 : ℚ) < 365 ∧ findPlannedGrowRate 252 11323 365 = 31.02 := by
  have h := findPlannedGrowRate_spec 252 11323 365 (by norm_num)
  refine ⟨by norm_num, ?_⟩
  rw [h.1]
  norm_num [pyRound2, pyRound, Int.fract, round_eq]

/-! ## Claim C2: threshold classification -/

/-- C2 counterexample: the claim quantifies over every planned_rate, but
for a negative planned rate the two thresholds swap order and the guarded
comparison of the source classifies Ok although the stated crit condition
current_rate > planned_rate*(1+crit_pct/100) holds (with 0 < warn_pct <
crit_pct as the claim requires). -/
theorem do_status_processing_claim_cx :
    do_status_processing (-130) (-100) 20 40 = .ok ∧
    ((-100 : ℚ) * (1 + 40 / 100) < -130) ∧
    ((0 : ℚ) < 20) ∧ ((20 : ℚ) < 40) := by
  refine ⟨by norm_num [do_status_processing], by norm_num, by norm_num, by norm_num⟩

/-- C2 (amended with the nonnegativity of the planned rate, which holds for
every planned rate the program computes): for 0 < warn_pct < crit_pct and
0 ≤ planned_rate, the classification is Critical iff the rate strictly
exceeds the crit threshold, otherwise Warning iff it strictly exceeds the
warn threshold, otherwise Ok. -/
theorem do_status_processing_spec (cur pl w c : ℚ) (hw : 0 < w) (hwc : w < c)
    (hpl : 0 ≤ pl) :
    (do_status_processing cur pl w c = .crit ↔ pl * (1 + c / 100) < cur) ∧
    (do_status_processing cur pl w c = .warn ↔
      (pl * (1 + w / 100) < cur ∧ ¬ pl * (1 + c / 100) < cur)) ∧
    (do_status_processing cur pl w c = .ok ↔ ¬ pl * (1 + w / 100) < cur) := by
  have hmono : pl * (1 + w / 100) ≤ pl * (1 + c / 100) :=
    mul_le_mul_of_nonneg_left (by linarith) hpl
  by_cases h2 : pl * (1 + c / 100) < cur
  · have h1 : pl * (1 + w / 100) < cur := lt_of_le_of_lt hmono h2
    simp [do_status_processing, h1, h2]
  · by_cases h1 : pl * (1 + w / 100) < cur
    · simp [do_status_processing, h1, h2]
    · simp [do_status_processing, h1, h2]

/-- C2 witness: scenario D, current 130 against planned 100 with 20/40
percent thresholds, classifies Warning. -/
theorem do_status_processing_spec_witness :
    do_status_processing 130 100 20 40 = .warn := by
  have h := do_status_processing_spec 130 100 20 40 (by norm_num) (by norm_num)
    (by norm_num)
  exact h.2.1.mpr (by norm_num)

/-! ## Claim C7: init fallback behaviour -/

/-- C7 counterexample: a permission-denied failure of open() is an OSError,
and IOError is an alias of OSError in Python 3, so the line
except (IOError, yaml.YAMLError) catches it and init falls back to the
empty store instead of propagating the error as fatal, contrary to the
claim. -/
theorem histInit_permission_denied_cx :
    histInit .permissionDenied 0 14 = .ok emptyStore ∧
    caughtByFallback .permissionDenied = true :=
  ⟨rfl, rfl⟩

/-- C7 (amended): init never raises for a missing or corrupt state file and
initializes the empty store there; on a successful load it immediately
purges; every IOError-family failure, permission denied included, is
likewise swallowed into the empty-store fallback, and only exceptions
outside IOError and yaml.YAMLError propagate. -/
theorem histInit_spec :
    (∀ (d : Store PyVal) (now maxw : ℚ),
      histInit (.loaded d) now maxw = .ok (removeOldDatapoints d now maxw)) ∧
    (∀ (o : LoadOutcome) (now maxw : ℚ), caughtByFallback o = true →
      histInit o now maxw = .ok emptyStore) ∧
    (∀ (now maxw : ℚ), histInit .otherErr now maxw = .error ()) := by
  refine ⟨fun d now maxw => rfl, ?_, fun now maxw => rfl⟩
  intro o now maxw h
  cases o <;> simp_all [histInit, caughtByFallback]

/-- C7 witness: a missing file yields the empty store without an error. -/
theorem histInit_spec_witness : histInit .fileMissing 5 7 = .ok emptyStore :=
  histInit_spec.2.1 .fileMissing 5 7 rfl

/-! ## Claim C10: the memory key ignores the disk arguments -/

/-- C10: with the memory prefix, add_datapoint, get_dataspan,
verify_dataspan and get_datapoints accept and completely ignore the path
and data_type arguments: no validation error arises from a nonexistent
path or an unsupported kind, and the result and the stored state coincide
with the call that passes no disk arguments at all. -/
theorem memory_ignores_disk_args (fs : String → Bool) (v : PyVal)
    (path data_type : Option String) (now minw maxw : ℚ) (s : Store PyVal) :
    add_datapoint fs "memory" v path data_type now s =
      add_datapoint fs "memory" v none none now s ∧
    get_dataspan fs "memory" path data_type s =
      get_dataspan fs "memory" none none s ∧
    verify_dataspan fs "memory" path data_type s minw =
      verify_dataspan fs "memory" none none s minw ∧
    get_datapoints fs "memory" path data_type s now maxw =
      get_datapoints fs "memory" none none s now maxw := by
  refine ⟨?_, ?_, ?_, ?_⟩ <;>
    simp [add_datapoint, get_dataspan, verify_dataspan, get_datapoints,
      verifyResourceTypes, addApply, seriesFor]

/-! ## Claim C4: dataspan computation and the empty-series error -/

/-- C4: for a valid key whose series is allocated in the store, get_dataspan
returns round((max(timestamps) - min(timestamps))/86400, 2) over the
currently retained samples; it fails with the empty-series error exactly on
a series with zero samples, while a series with exactly one sample yields a
span of 0 rather than an error. -/
theorem get_dataspan_spec (fs : String → Bool) (pfx : String)
    (path data_type : Option String) (s : Store PyVal) (ser : Series PyVal)
    (hv : verifyResourceTypes fs pfx path data_type = true)
    (hser : seriesFor pfx path data_type s = some ser) :
    (ser.keys = ∅ → get_dataspan fs pfx path data_type s = .error .emptySeries) ∧
    (∀ h : ser.keys.Nonempty, get_dataspan fs pfx path data_type s =
      .ok (pyRound2 (((ser.keys.max' h - ser.keys.min' h : ℤ) : ℚ) / (3600 * 24)))) ∧
    (ser.keys.card = 1 → get_dataspan fs pfx path data_type s = .ok 0) := by
  have hgd : get_dataspan fs pfx path data_type s = spanOf ser := by
    simp [get_dataspan, hv, hser]
  refine ⟨?_, ?_, ?_⟩
  · intro h0
    rw [hgd]
    unfold spanOf
    rw [dif_neg]
    simp [h0]
  · intro h
    rw [hgd]
    unfold spanOf
    rw [dif_pos h]
  · intro h1
    rw [hgd]
    obtain ⟨K, f⟩ := ser
    obtain ⟨a, ha⟩ := Finset.card_eq_one.mp h1
    have hK : K = {a} := ha
    subst hK
    unfold spanOf
    rw [dif_pos ⟨a, Finset.mem_singleton_self a⟩]
    have hmax : ({a} : Finset ℤ).max' ⟨a, Finset.mem_singleton_self a⟩ = a :=
      Finset.max'_singleton a
    have hmin : ({a} : Finset ℤ).min' ⟨a, Finset.mem_singleton_self a⟩ = a :=
      Finset.min'_singleton a
    rw [hmax, hmin]
    norm_num [pyRound2, pyRound, Int.fract, round_eq]

def c4Store : Store PyVal :=
  { memory := ⟨{0, 86400}, fun _ => PyVal.num 1⟩
    diskKeys := ∅
    disk := fun _ => ⟨∅, fun _ => emptySeries⟩ }

def c4OneStore : Store PyVal :=
  { memory := ⟨{86400}, fun _ => PyVal.num 1⟩
    diskKeys := ∅
    disk := fun _ => ⟨∅, fun _ => emptySeries⟩ }

/-- C4 witness: scenario A for the span (two memory samples one day apart
give a span of 1.0), and a single-sample series gives 0 and no error. -/
theorem get_dataspan_spec_witness :
    get_dataspan (fun _ => false) "memory" none none c4Store = .ok 1 ∧
    get_dataspan (fun _ => false) "memory" none none c4OneStore = .ok 0 := by
  constructor
  · have hne : c4Store.memory.keys.Nonempty := ⟨0, by decide⟩
    have h := get_dataspan_spec (fun _ => false) "memory" none none c4Store
      c4Store.memory (by decide) rfl
    rw [h.2.1 hne]
    have hmax : c4Store.memory.keys.max' hne = 86400 :=
      le_antisymm (Finset.max'_le _ _ _ (by decide)) (Finset.le_max' _ _ (by decide))
    have hmin : c4Store.memory.keys.min' hne = 0 :=
      le_antisymm (Finset.min'_le _ _ (by decide)) (Finset.le_min' _ _ _ (by decide))
    rw [hmax, hmin]
    have : pyRound2 (((86400 - 0 : ℤ) : ℚ) / (3600 * 24)) = 1 := by
      norm_num [pyRound2, pyRound, Int.fract, round_eq]
    rw [this]
  · have h := get_dataspan_spec (fun _ => false) "memory" none none c4OneStore
      c4OneStore.memory (by decide) rfl
    exact h.2.2 (by decide)

/-! ## Claim C1: retention invariant and the purge points -/

def staleStore : Store PyVal :=
  { memory := ⟨{0, 100}, fun _ => PyVal.num 1⟩
    diskKeys := ∅
    disk := fun _ => ⟨∅, fun _ => emptySeries⟩ }

/-- C1 counterexample: get_dataspan does not purge before reading. At time
10^6 with a one-day window, both retained memory samples of staleStore lie
beyond the cutoff, yet dataSpanDays succeeds and computes the span over
them, while after a purge the same read yields the empty-series error; so
the retention bound does not hold at the moment of a dataSpanDays read. -/
theorem get_dataspan_no_purge_cx :
    get_dataspan (fun _ => false) "memory" none none staleStore = .ok 0 ∧
    get_dataspan (fun _ => false) "memory" none none
      (removeOldDatapoints staleStore 1000000 1) = .error .emptySeries ∧
    (0 : ℤ) ∈ staleStore.memory.keys ∧
    ¬ ((1000000 : ℚ) - 1 * (3600 * 24) < ((0 : ℤ) : ℚ)) := by
  have hne : staleStore.memory.keys.Nonempty := ⟨0, by decide⟩
  refine ⟨?_, ?_, by decide, by norm_num⟩
  · have h1 : get_dataspan (fun _ => false) "memory" none none staleStore =
        spanOf staleStore.memory := by
      simp [get_dataspan, verifyResourceTypes, seriesFor]
    rw [h1]
    unfold spanOf
    rw [dif_pos hne]
    have hmax : staleStore.memory.keys.max' hne = 100 :=
      le_antisymm (Finset.max'_le _ _ _ (by decide)) (Finset.le_max' _ _ (by decide))
    have hmin : staleStore.memory.keys.min' hne = 0 :=
      le_antisymm (Finset.min'_le _ _ (by decide)) (Finset.le_min' _ _ _ (by decide))
    rw [hmax, hmin]
    have : pyRound2 (((100 - 0 : ℤ) : ℚ) / (3600 * 24)) = 0 := by
      norm_num [pyRound2, pyRound, Int.fract, round_eq]
    rw [this]
  · have h2 : (removeOldDatapoints staleStore 1000000 1).memory.keys = ∅ := by
      rw [show (removeOldDatapoints staleStore 1000000 1).memory.keys =
          staleStore.memory.keys.filter
            (fun t : ℤ => (1000000 : ℚ) - 1 * (3600 * 24) < (t : ℚ)) from rfl]
      rw [Finset.filter_eq_empty_iff]
      intro t ht
      fin_cases ht <;> norm_num
    have h3 : get_dataspan (fun _ => false) "memory" none none
        (removeOldDatapoints staleStore 1000000 1) =
        spanOf (removeOldDatapoints staleStore 1000000 1).memory := by
      simp [get_dataspan, verifyResourceTypes, seriesFor]
    rw [h3]
    unfold spanOf
    rw [dif_neg]
    simp [h2]

/-- Shape of a successful query result: the returned dict is one of the
purged series of the store. -/
theorem get_datapoints_ok_shape (fs : String → Bool) (pfx : String)
    (path data_type : Option String) (s : Store PyVal) (now maxw : ℚ)
    (dps : Series PyVal)
    (hok : get_datapoints fs pfx path data_type s now maxw = .ok dps) :
    dps = (removeOldDatapoints s now maxw).memory ∨
    ∃ p d, dps = ((removeOldDatapoints s now maxw).disk p).series d := by
  by_cases hv : verifyResourceTypes fs pfx path data_type = false
  · simp [get_datapoints, hv] at hok
  · by_cases hd : pfx = "disk"
    · cases path with
      | none => simp [get_datapoints, hv, hd] at hok
      | some p =>
        cases data_type with
        | none => simp [get_datapoints, hv, hd] at hok
        | some d =>
          simp [get_datapoints, hv, hd] at hok
          split_ifs at hok
          exact Or.inr ⟨p, d, (Except.ok.inj hok).symm⟩
    · simp [get_datapoints, hv, hd] at hok
      exact Or.inl hok.symm

/-- C1 (amended): a purge keeps, for every series of the store and against
the single cutoff now - max_window*86400 computed once per call, exactly
the samples strictly newer than the cutoff; purge runs inside query
(get_datapoints) and save, so every timestamp observable through a
successful query and every timestamp written by save satisfies the bound
at the moment of that call. (Unlike the original claim, dataSpanDays does
not purge; see the counterexample.) -/
theorem purge_retention_spec (fs : String → Bool) (s : Store PyVal)
    (now maxw : ℚ) :
    (∀ t : ℤ, t ∈ (removeOldDatapoints s now maxw).memory.keys ↔
      (t ∈ s.memory.keys ∧ now - maxw * (3600 * 24) < (t : ℚ))) ∧
    ((removeOldDatapoints s now maxw).diskKeys = s.diskKeys) ∧
    (∀ p, ((removeOldDatapoints s now maxw).disk p).kinds = (s.disk p).kinds) ∧
    (∀ (p d : String) (t : ℤ),
      t ∈ (((removeOldDatapoints s now maxw).disk p).series d).keys ↔
      (t ∈ ((s.disk p).series d).keys ∧ now - maxw * (3600 * 24) < (t : ℚ))) ∧
    (∀ pfx path data_type dps,
      get_datapoints fs pfx path data_type s now maxw = .ok dps →
      ∀ t ∈ dps.keys, now - maxw * (3600 * 24) < (t : ℚ)) ∧
    (∀ t ∈ (saveStore s now maxw).memory.keys,
      now - maxw * (3600 * 24) < (t : ℚ)) ∧
    (∀ (p d : String), ∀ t ∈ (((saveStore s now maxw).disk p).series d).keys,
      now - maxw * (3600 * 24) < (t : ℚ)) := by
  refine ⟨?_, rfl, fun p => rfl, ?_, ?_, ?_, ?_⟩
  · intro t
    simp [removeOldDatapoints, purgeSeries, Finset.mem_filter]
  · intro p d t
    simp [removeOldDatapoints, purgeSeries, Finset.mem_filter]
  · intro pfx path data_type dps hok t ht
    rcases get_datapoints_ok_shape fs pfx path data_type s now maxw dps hok with
      h | ⟨p, d, h⟩
    · rw [h] at ht
      exact (Finset.mem_filter.mp ht).2
    · rw [h] at ht
      exact (Finset.mem_filter.mp ht).2
  · intro t ht
    exact (Finset.mem_filter.mp ht).2
  · intro p d t ht
    exact (Finset.mem_filter.mp ht).2

/-- C1 witness: the purge characterisation and the save bound evaluated on
a concrete store and clock. -/
theorem purge_retention_spec_witness :
    ((0 : ℤ) ∈ (removeOldDatapoints staleStore 1000000 1).memory.keys ↔
      ((0 : ℤ) ∈ staleStore.memory.keys ∧
        (1000000 : ℚ) - 1 * (3600 * 24) < ((0 : ℤ) : ℚ))) ∧
    (removeOldDatapoints staleStore 1000000 1).diskKeys = staleStore.diskKeys := by
  have h := purge_retention_spec (fun _ => false) staleStore 1000000 1
  exact ⟨h.1 0, h.2.1⟩

/-! ## Claim C6: add_datapoint validation -/

/-- Characterisation of the failing sanity checks of _verify_resource_types
in the terms of the claim. -/
theorem verifyResourceTypes_false_iff (fs : String → Bool) (pfx : String)
    (path data_type : Option String) :
    verifyResourceTypes fs pfx path data_type = false ↔
      (¬ (pfx = "memory" ∨ pfx = "disk") ∨
       (pfx = "disk" ∧ (path = none ∨ (∃ p, path = some p ∧ fs p = false) ∨
          (data_type ≠ some "inode" ∧ data_type ≠ some "space")))) := by
  by_cases hm : pfx = "memory"
  · subst hm
    have hne : ("memory" : String) ≠ "disk" := by decide
    simp [verifyResourceTypes, hne]
  · by_cases hd : pfx = "disk"
    · subst hd
      have hne : ("disk" : String) ≠ "memory" := by decide
      cases path with
      | none => simp [verifyResourceTypes, hne]
      | some p =>
        cases data_type with
        | none => simp [verifyResourceTypes, hne]
        | some d =>
          by_cases hfs : fs p = true
          · simp [verifyResourceTypes, hne, hfs]
          · have hfs2 : fs p = false := by revert hfs; cases fs p <;> simp
            simp [verifyResourceTypes, hne, hfs2]
    · have hboth : ¬ (pfx = "memory" ∨ pfx = "disk") := by tauto
      simp [verifyResourceTypes, hm, hd, hboth]

/-- C6 counterexample: the source checks the value only with
float(datapoint), and float() succeeds on non-finite floats, so adding an
infinite or NaN value succeeds although the claim requires failure when
the value is not numeric and finite. -/
theorem add_datapoint_nonfinite_cx :
    (add_datapoint (fun _ => true) "memory" PyVal.inf none none 0
      emptyStore).isOk = true ∧
    isFiniteNum PyVal.inf = false ∧
    (add_datapoint (fun _ => true) "memory" PyVal.nan none none 0
      emptyStore).isOk = true ∧
    isFiniteNum PyVal.nan = false := by
  exact ⟨rfl, rfl, rfl, rfl⟩

/-- C6 (amended): add_datapoint fails with InvalidInput exactly when the
key kind is unsupported, the disk parameters are incomplete (missing path
or kind not inode/space), the value fails float() conversion (non-finite
floats are accepted by that conversion), or, for disk, the mountpoint path
does not exist; when none of these hold it succeeds and inserts or
overwrites the sample at the rounded current time, and on error the store
is returned unchanged (no mutation happens before the checks pass). -/
theorem add_datapoint_spec (fs : String → Bool) (pfx : String) (v : PyVal)
    (path data_type : Option String) (now : ℚ) (s : Store PyVal) :
    (add_datapoint fs pfx v path data_type now s = .error .invalidInput ↔
      (¬ (pfx = "memory" ∨ pfx = "disk") ∨
       ((pfx = "disk" ∧ (path = none ∨ (∃ p, path = some p ∧ fs p = false) ∨
          (data_type ≠ some "inode" ∧ data_type ≠ some "space"))) ∨
        floatOk v = false))) ∧
    (∀ s2, add_datapoint fs pfx v path data_type now s = .ok s2 →
      (pfx = "memory" →
        s2 = { s with memory := insertS (pyRound now) v s.memory }) ∧
      (∀ p d, pfx = "disk" → path = some p → data_type = some d →
        pyRound now ∈ ((s2.disk p).series d).keys ∧
        ((s2.disk p).series d).val (pyRound now) = v)) := by
  constructor
  · unfold add_datapoint
    by_cases hv : verifyResourceTypes fs pfx path data_type = false
    · rw [if_pos hv]
      have hAB := (verifyResourceTypes_false_iff fs pfx path data_type).mp hv
      exact ⟨fun _ => hAB.imp_right Or.inl, fun _ => rfl⟩
    · rw [if_neg hv]
      have hAB : ¬ (¬ (pfx = "memory" ∨ pfx = "disk") ∨
          (pfx = "disk" ∧ (path = none ∨ (∃ p, path = some p ∧ fs p = false) ∨
            (data_type ≠ some "inode" ∧ data_type ≠ some "space")))) :=
        fun h => hv ((verifyResourceTypes_false_iff fs pfx path data_type).mpr h)
      by_cases hf : floatOk v = false
      · rw [if_pos hf]
        exact ⟨fun _ => Or.inr (Or.inr hf), fun _ => rfl⟩
      · rw [if_neg hf]
        constructor
        · intro h
          exact absurd h (by simp)
        · intro h
          rcases h with h | h | h
          · exact absurd (Or.inl h) hAB
          · exact absurd (Or.inr h) hAB
          · exact absurd h hf
  · intro s2 hok
    unfold add_datapoint at hok
    by_cases hv : verifyResourceTypes fs pfx path data_type = false
    · rw [if_pos hv] at hok
      exact absurd hok (by simp)
    · rw [if_neg hv] at hok
      by_cases hf : floatOk v = false
      · rw [if_pos hf] at hok
        exact absurd hok (by simp)
      · rw [if_neg hf] at hok
        have hs2 : s2 = addApply pfx v path data_type (pyRound now) s :=
          (Except.ok.inj hok).symm
        constructor
        · intro hm
          subst hm
          rw [hs2]
          unfold addApply
          rw [if_pos rfl]
        · intro p d hdisk hp hd
          subst hdisk
          subst hp
          subst hd
          rw [hs2]
          unfold addApply
          rw [if_neg (by decide : ¬ ("disk" : String) = "memory")]
          simp [insertS]

/-- C6 witness: scenario E, adding a disk sample for a nonexistent path
fails with InvalidInput. -/
theorem add_datapoint_spec_witness :
    add_datapoint (fun _ => false) "disk" (PyVal.num 5) (some "/data")
      (some "inode") 0 emptyStore = .error .invalidInput := by
  have h := add_datapoint_spec (fun _ => false) "disk" (PyVal.num 5)
    (some "/data") (some "inode") 0 emptyStore
  exact h.1.mpr (Or.inr (Or.inl ⟨rfl, Or.inr (Or.inl ⟨"/data", rfl, rfl⟩)⟩))

/-! ## Claim C8: the inode/space pair allocation invariant -/

/-- Stores reachable from the empty store through the mutating operations
of HistoryFile (successful add_datapoint, purge, clear_history). -/
inductive ReachableStore : Store PyVal → Prop where
  | empty : ReachableStore emptyStore
  | addStep (fs : String → Bool) (pfx : String) (v : PyVal)
      (path data_type : Option String) (now : ℚ) (s s2 : Store PyVal) :
      ReachableStore s →
      add_datapoint fs pfx v path data_type now s = .ok s2 →
      ReachableStore s2
  | purgeStep (now maxw : ℚ) (s : Store PyVal) :
      ReachableStore s → ReachableStore (removeOldDatapoints s now maxw)
  | clearStep (s : Store PyVal) :
      ReachableStore s → ReachableStore (clear_history s)

/-- Every mountpoint present in the store carries both the inode and the
space sub-series. -/
def DiskPairInv (s : Store PyVal) : Prop :=
  ∀ p ∈ s.diskKeys, (s.disk p).kinds = {"inode", "space"}

/-- C8: the first time any sample is added for a disk mountpoint, the inode
and space sub-series are allocated together (the requested kind receiving
the sample), and every store reachable from the empty store through the
mutating operations has both sub-series for every mountpoint it holds. -/
theorem disk_pair_invariant :
    (∀ s : Store PyVal, ReachableStore s → DiskPairInv s) ∧
    (∀ (fs : String → Bool) (v : PyVal) (p d : String) (now : ℚ)
      (s s2 : Store PyVal), p ∉ s.diskKeys →
      add_datapoint fs "disk" v (some p) (some d) now s = .ok s2 →
      (s2.disk p).kinds = {"inode", "space"} ∧
      pyRound now ∈ ((s2.disk p).series d).keys) := by
  have haddApply : ∀ (pfx : String) (v : PyVal) (path data_type : Option String)
      (t : ℤ) (s : Store PyVal), DiskPairInv s →
      DiskPairInv (addApply pfx v path data_type t s) := by
    intro pfx v path data_type t s hinv
    unfold addApply
    by_cases hm : pfx = "memory"
    · rw [if_pos hm]
      exact hinv
    · rw [if_neg hm]
      cases path with
      | none => exact hinv
      | some p =>
        cases data_type with
        | none => exact hinv
        | some d =>
          intro q hq
          simp only [Finset.mem_insert] at hq
          by_cases hqp : q = p
          · subst hqp
            simp only []
            rw [if_pos trivial]
            by_cases hp : q ∈ s.diskKeys
            · rw [if_pos hp]
              exact hinv q hp
            · rw [if_neg hp]
          · simp only []
            rw [if_neg hqp]
            rcases hq with hq | hq
            · exact absurd hq hqp
            · exact hinv q hq
  constructor
  · intro s hr
    induction hr with
    | empty =>
      intro p hp
      simp [emptyStore] at hp
    | addStep fs pfx v path data_type now s s2 hr hok ih =>
      unfold add_datapoint at hok
      by_cases hv : verifyResourceTypes fs pfx path data_type = false
      · rw [if_pos hv] at hok
        exact absurd hok (by simp)
      · rw [if_neg hv] at hok
        by_cases hf : floatOk v = false
        · rw [if_pos hf] at hok
          exact absurd hok (by simp)
        · rw [if_neg hf] at hok
          have hs2 : s2 = addApply pfx v path data_type (pyRound now) s :=
            (Except.ok.inj hok).symm
          rw [hs2]
          exact haddApply pfx v path data_type (pyRound now) s ih
    | purgeStep now maxw s hr ih =>
      intro p hp
      exact ih p hp
    | clearStep s hr ih =>
      intro p hp
      simp [clear_history] at hp
  · intro fs v p d now s s2 hnotin hok
    unfold add_datapoint at hok
    by_cases hv : verifyResourceTypes fs "disk" (some p) (some d) = false
    · rw [if_pos hv] at hok
      exact absurd hok (by simp)
    · rw [if_neg hv] at hok
      by_cases hf : floatOk v = false
      · rw [if_pos hf] at hok
        exact absurd hok (by simp)
      · rw [if_neg hf] at hok
        have hs2 : s2 = addApply "disk" v (some p) (some d) (pyRound now) s :=
          (Except.ok.inj hok).symm
        rw [hs2]
        unfold addApply
        rw [if_neg (by decide : ¬ ("disk" : String) = "memory")]
        simp only []
        rw [if_pos trivial, if_neg hnotin]
        constructor
        · rfl
        · simp [insertS]

def c8Store : Store PyVal :=
  (add_datapoint (fun _ => true) "disk" (PyVal.num 5) (some "/data")
    (some "space") 0 emptyStore).toOption.getD emptyStore

/-- C8 witness: the first disk add for a fresh mountpoint allocates the
inode/space pair and stores the sample under the requested kind. -/
theorem disk_pair_invariant_witness :
    (c8Store.disk "/data").kinds = {"inode", "space"} ∧
    pyRound 0 ∈ ((c8Store.disk "/data").series "space").keys := by
  exact disk_pair_invariant.2 (fun _ => true) (PyVal.num 5) "/data" "space" 0
    emptyStore c8Store (by decide) rfl

/-! ## Claim C9: span monotonicity -/

/-- Comparison of two dataspan results: both succeed and the first value is
at most the second. -/
def spanLE : Except Err ℚ → Except Err ℚ → Prop
  | .ok q1, .ok q2 => q1 ≤ q2
  | _, _ => False

/-- Inserting a sample strictly newer than every retained one never
decreases the span of a series. -/
theorem spanOf_insert_newer {α : Type} (ser : Series α) (t : ℤ) (v : α)
    (hne : ser.keys.Nonempty) (hmax : ∀ u ∈ ser.keys, u < t) :
    spanLE (spanOf ser) (spanOf (insertS t v ser)) := by
  have hne2 : (insertS t v ser).keys.Nonempty :=
    ⟨t, Finset.mem_insert_self t ser.keys⟩
  have hmax2 : (insertS t v ser).keys.max' hne2 = t :=
    le_antisymm
      (Finset.max'_le _ _ _ (by
        intro y hy
        rcases Finset.mem_insert.mp hy with rfl | hy2
        · exact le_refl y
        · exact le_of_lt (hmax y hy2)))
      (Finset.le_max' _ t (Finset.mem_insert_self t ser.keys))
  have hmin2 : (insertS t v ser).keys.min' hne2 = ser.keys.min' hne :=
    le_antisymm
      (Finset.min'_le _ _ (Finset.mem_insert_of_mem (Finset.min'_mem _ hne)))
      (Finset.le_min' _ _ _ (by
        intro y hy
        rcases Finset.mem_insert.mp hy with rfl | hy2
        · exact le_of_lt (hmax _ (Finset.min'_mem _ hne))
        · exact Finset.min'_le _ _ hy2))
  unfold spanOf
  rw [dif_pos hne, dif_pos hne2]
  show pyRound2 _ ≤ pyRound2 _
  apply pyRound2_mono
  rw [hmax2, hmin2]
  have h4 : ser.keys.max' hne ≤ t :=
    le_of_lt (hmax _ (Finset.max'_mem _ hne))
  have h5 : ((ser.keys.max' hne - ser.keys.min' hne : ℤ) : ℚ) ≤
      ((t - ser.keys.min' hne : ℤ) : ℚ) := by
    exact_mod_cast sub_le_sub_right h4 _
  linarith

/-- C9: for every series holding at least one sample, a successful add
whose (rounded) timestamp is strictly greater than every retained
timestamp of that series never decreases the value returned by
get_dataspan: both reads succeed and the span after the add is at least
the span before. -/
theorem dataspan_monotone (fs : String → Bool) (pfx : String)
    (path data_type : Option String) (v : PyVal) (now : ℚ)
    (s s2 : Store PyVal) (ser : Series PyVal)
    (hser : seriesFor pfx path data_type s = some ser)
    (hne : ser.keys.Nonempty)
    (hnew : ∀ u ∈ ser.keys, u < pyRound now)
    (hok : add_datapoint fs pfx v path data_type now s = .ok s2) :
    spanLE (get_dataspan fs pfx path data_type s)
      (get_dataspan fs pfx path data_type s2) := by
  unfold add_datapoint at hok
  by_cases hv : verifyResourceTypes fs pfx path data_type = false
  · rw [if_pos hv] at hok
    exact absurd hok (by simp)
  · rw [if_neg hv] at hok
    by_cases hf : floatOk v = false
    · rw [if_pos hf] at hok
      exact absurd hok (by simp)
    · rw [if_neg hf] at hok
      have hs2 : s2 = addApply pfx v path data_type (pyRound now) s :=
        (Except.ok.inj hok).symm
      have hvt : verifyResourceTypes fs pfx path data_type = true := by
        revert hv
        cases verifyResourceTypes fs pfx path data_type <;> simp
      have hser2 : seriesFor pfx path data_type s2 =
          some (insertS (pyRound now) v ser) := by
        rw [hs2]
        by_cases hm : pfx = "memory"
        · subst hm
          have hser2 : s.memory = ser := by
            have h := hser
            unfold seriesFor at h
            rw [if_pos rfl] at h
            exact Option.some.inj h
          unfold seriesFor
          rw [if_pos rfl]
          simp [addApply, hser2]
        · cases path with
          | none => simp [seriesFor, hm] at hser
          | some p =>
            cases data_type with
            | none => simp [seriesFor, hm] at hser
            | some d =>
              simp only [seriesFor, hm] at hser ⊢
              by_cases hp : p ∈ s.diskKeys
              · rw [if_pos hp] at hser
                by_cases hk : d ∈ (s.disk p).kinds
                · rw [if_pos hk] at hser
                  have hser3 : (s.disk p).series d = ser := Option.some.inj hser
                  simp [addApply, hm, hp, hk, hser3]
                · rw [if_neg hk] at hser
                  exact absurd hser (by simp)
              · rw [if_neg hp] at hser
                exact absurd hser (by simp)
      have hg1 : get_dataspan fs pfx path data_type s = spanOf ser := by
        simp [get_dataspan, hvt, hser]
      have hg2 : get_dataspan fs pfx path data_type s2 =
          spanOf (insertS (pyRound now) v ser) := by
        simp [get_dataspan, hvt, hser2]
      rw [hg1, hg2]
      exact spanOf_insert_newer ser (pyRound now) v hne hnew

def c9Store : Store PyVal :=
  { memory := ⟨{0}, fun _ => PyVal.num 1⟩
    diskKeys := ∅
    disk := fun _ => ⟨∅, fun _ => emptySeries⟩ }

def c9After : Store PyVal :=
  (add_datapoint (fun _ => false) "memory" (PyVal.num 2) none none 86400
    c9Store).toOption.getD emptyStore

/-- C9 witness: adding a newer memory sample one day later does not
decrease the span. -/
theorem dataspan_monotone_witness :
    spanLE (get_dataspan (fun _ => false) "memory" none none c9Store)
      (get_dataspan (fun _ => false) "memory" none none c9After) := by
  have hnew : ∀ u ∈ c9Store.memory.keys, u < pyRound 86400 := by
    intro u hu
    have hu0 : u = 0 := by
      have : u ∈ ({0} : Finset ℤ) := hu
      simpa using this
    subst hu0
    have : pyRound 86400 = 86400 := by
      norm_num [pyRound, Int.fract, round_eq]
    omega
  exact dataspan_monotone (fun _ => false) "memory" none none (PyVal.num 2)
    86400 c9Store c9After c9Store.memory rfl ⟨0, by decide⟩ hnew rfl

/-! ## Claim C3: the fitted growth rate is the least-squares slope -/

/-- Expansion of a sum of squared affine residuals into the raw sums. -/
theorem sum_sq_affine (f : ℤ → ℚ) (K : Finset ℤ) (a b : ℚ) :
    ∑ t in K, (f t - (a * (t : ℚ) + b)) ^ 2 =
      (∑ t in K, f t ^ 2) - 2 * a * (∑ t in K, (t : ℚ) * f t)
        - 2 * b * (∑ t in K, f t) + a ^ 2 * (∑ t in K, (t : ℚ) ^ 2)
        + 2 * a * b * (∑ t in K, (t : ℚ)) + (K.card : ℚ) * b ^ 2 := by
  induction K using Finset.induction_on with
  | empty => simp
  | @insert x s h ih =>
    rw [Finset.sum_insert h, Finset.sum_insert h, Finset.sum_insert h,
        Finset.sum_insert h, Finset.sum_insert h, Finset.sum_insert h,
        Finset.card_insert_of_not_mem h, ih]
    push_cast
    ring

/-- Expansion of a centred sum of squares. -/
theorem sum_centered (K : Finset ℤ) (m : ℚ) :
    ∑ t in K, ((t : ℚ) - m) ^ 2 =
      (∑ t in K, (t : ℚ) ^ 2) - 2 * m * (∑ t in K, (t : ℚ))
        + (K.card : ℚ) * m ^ 2 := by
  induction K using Finset.induction_on with
  | empty => simp
  | @insert x s h ih =>
    rw [Finset.sum_insert h, Finset.sum_insert h, Finset.sum_insert h,
        Finset.card_insert_of_not_mem h, ih]
    push_cast
    ring

theorem RSS_expand (dps : Series ℚ) (a b : ℚ) :
    RSS dps a b = sumYY dps - 2 * a * sumXY dps - 2 * b * sumY dps
      + a ^ 2 * sumXX dps + 2 * a * b * sumX dps + nQ dps * b ^ 2 := by
  unfold RSS sumYY sumXY sumY sumXX sumX nQ
  exact sum_sq_affine dps.val dps.keys a b

/-- First normal equation of the least-squares solution. -/
theorem normal_eq1 (dps : Series ℚ) (hD : detD dps ≠ 0) :
    olsSlope dps * sumXX dps + olsIntercept dps * sumX dps = sumXY dps := by
  unfold olsSlope olsIntercept
  unfold detD at hD ⊢
  field_simp
  ring

/-- Second normal equation of the least-squares solution. -/
theorem normal_eq2 (dps : Series ℚ) (hD : detD dps ≠ 0) :
    olsSlope dps * sumX dps + olsIntercept dps * nQ dps = sumY dps := by
  unfold olsSlope olsIntercept
  unfold detD at hD ⊢
  field_simp
  ring

/-- Decomposition of the residual sum of squares around the normal-equation
solution: the difference is a positive semidefinite quadratic form. -/
theorem RSS_decomp (dps : Series ℚ) (hD : detD dps ≠ 0) (a b : ℚ) :
    RSS dps a b = RSS dps (olsSlope dps) (olsIntercept dps)
      + (sumXX dps * (a - olsSlope dps) ^ 2
         + 2 * sumX dps * (a - olsSlope dps) * (b - olsIntercept dps)
         + nQ dps * (b - olsIntercept dps) ^ 2) := by
  have h1 := normal_eq1 dps hD
  have h2 := normal_eq2 dps hD
  rw [RSS_expand, RSS_expand]
  linear_combination (2 * a - 2 * olsSlope dps) * h1 +
    (2 * b - 2 * olsIntercept dps) * h2

/-- With two distinct timestamps the normal-equation determinant is
positive (the timestamps of a dict are distinct by construction). -/
theorem detD_pos (dps : Series ℚ) (h2 : 2 ≤ dps.keys.card) : 0 < detD dps := by
  have hn : (0 : ℚ) < nQ dps := by
    unfold nQ
    exact_mod_cast Nat.lt_of_lt_of_le Nat.zero_lt_two h2
  have hn2 : ((dps.keys.card : ℚ)) ≠ 0 := by
    have := ne_of_gt hn
    unfold nQ at this
    exact this
  have hkey : nQ dps * ∑ t in dps.keys, ((t : ℚ) - sumX dps / nQ dps) ^ 2 =
      detD dps := by
    rw [sum_centered]
    unfold detD sumXX sumX nQ
    field_simp
    ring
  obtain ⟨x, hx, y, hy, hxy⟩ := Finset.one_lt_card.mp
    (lt_of_lt_of_le Nat.one_lt_two h2)
  have hterm : ∃ i ∈ dps.keys, 0 < ((i : ℚ) - sumX dps / nQ dps) ^ 2 := by
    by_cases hxm : ((x : ℚ)) = sumX dps / nQ dps
    · refine ⟨y, hy, ?_⟩
      have hym : ((y : ℚ)) ≠ sumX dps / nQ dps := by
        intro hym
        exact hxy (by exact_mod_cast hxm.trans hym.symm)
      exact lt_of_le_of_ne (sq_nonneg _)
        (Ne.symm (pow_ne_zero 2 (sub_ne_zero.mpr hym)))
    · exact ⟨x, hx, lt_of_le_of_ne (sq_nonneg _)
        (Ne.symm (pow_ne_zero 2 (sub_ne_zero.mpr hxm)))⟩
  have hpos : 0 < ∑ t in dps.keys, ((t : ℚ) - sumX dps / nQ dps) ^ 2 :=
    Finset.sum_pos' (fun i _ => sq_nonneg _) hterm
  calc (0 : ℚ) < nQ dps * ∑ t in dps.keys, ((t : ℚ) - sumX dps / nQ dps) ^ 2 :=
        mul_pos hn hpos
    _ = detD dps := hkey

/-- Nonnegativity of the quadratic form appearing in RSS_decomp. -/
theorem quad_nonneg (dps : Series ℚ) (h2 : 2 ≤ dps.keys.card) (da db : ℚ) :
    0 ≤ sumXX dps * da ^ 2 + 2 * sumX dps * da * db + nQ dps * db ^ 2 := by
  have hn : (0 : ℚ) < nQ dps := by
    unfold nQ
    exact_mod_cast Nat.lt_of_lt_of_le Nat.zero_lt_two h2
  have hDu : 0 < nQ dps * sumXX dps - sumX dps ^ 2 := by
    have h := detD_pos dps h2
    unfold detD at h
    exact h
  nlinarith [sq_nonneg (nQ dps * db + sumX dps * da), sq_nonneg da,
    mul_pos hn hn]

/-- C3: for every set of at least 2 samples (the timestamps of a dict are
distinct), the pair (olsSlope, olsIntercept) computed by the source in
closed form is an ordinary least-squares fit of value = a*timestamp + b
over the raw pairs, every least-squares fit has that same slope, and
find_current_grow_ratio returns round(a*86400, 2) for that slope a. -/
theorem findCurrentGrowRate_ols (dps : Series ℚ) (h2 : 2 ≤ dps.keys.card) :
    IsOLSFit dps (olsSlope dps) (olsIntercept dps) ∧
    ∀ a b, IsOLSFit dps a b →
      findCurrentGrowRate dps = pyRound2 (a * (3600 * 24)) := by
  have hD := detD_pos dps h2
  have hD2 : detD dps ≠ 0 := ne_of_gt hD
  have hDu : 0 < nQ dps * sumXX dps - sumX dps ^ 2 := by
    have h := hD
    unfold detD at h
    exact h
  have hn : (0 : ℚ) < nQ dps := by
    unfold nQ
    exact_mod_cast Nat.lt_of_lt_of_le Nat.zero_lt_two h2
  constructor
  · intro a2 b2
    rw [RSS_decomp dps hD2 a2 b2]
    have h := quad_nonneg dps h2 (a2 - olsSlope dps) (b2 - olsIntercept dps)
    linarith
  · intro a b hfit
    have hle : RSS dps a b ≤ RSS dps (olsSlope dps) (olsIntercept dps) :=
      hfit (olsSlope dps) (olsIntercept dps)
    have hdec := RSS_decomp dps hD2 a b
    have hQ : sumXX dps * (a - olsSlope dps) ^ 2
        + 2 * sumX dps * (a - olsSlope dps) * (b - olsIntercept dps)
        + nQ dps * (b - olsIntercept dps) ^ 2 ≤ 0 := by linarith
    have hsq : (a - olsSlope dps) ^ 2 ≤ 0 := by
      nlinarith [sq_nonneg (nQ dps * (b - olsIntercept dps)
        + sumX dps * (a - olsSlope dps)), hDu, hn,
        sq_nonneg (a - olsSlope dps)]
    have h0 : (a - olsSlope dps) ^ 2 = 0 := le_antisymm hsq (sq_nonneg _)
    have ha : a = olsSlope dps :=
      sub_eq_zero.mp ((pow_eq_zero_iff (by norm_num : (2 : ℕ) ≠ 0)).mp h0)
    rw [ha]
    rfl

/-- Scenario B sample set: value rises by 10 every 86400 seconds. -/
def c3Series : Series ℚ :=
  ⟨{0, 86400, 172800}, fun t => if t = 0 then 10 else if t = 86400 then 20 else 30⟩

/-- C3 witness: the samples (0,10), (86400,20), (172800,30) yield a growth
rate of exactly 10 units/day. -/
theorem findCurrentGrowRate_ols_witness :
    2 ≤ c3Series.keys.card ∧ findCurrentGrowRate c3Series = 10 := by
  have h := findCurrentGrowRate_ols c3Series (by decide)
  refine ⟨by decide, ?_⟩
  rw [h.2 (olsSlope c3Series) (olsIntercept c3Series) h.1]
  have hslope : olsSlope c3Series = 1 / 8640 := by
    norm_num [olsSlope, detD, nQ, sumXY, sumX, sumY, sumXX, c3Series,
      Finset.sum_insert, Finset.sum_singleton, Finset.card_insert_of_not_mem,
      Finset.mem_insert, Finset.mem_singleton]
  rw [hslope]
  norm_num [pyRound2, pyRound, Int.fract, round_eq]
